import Mathlib

/-!
Verification of the document indexing and retrieval core of LocalAgentWeaver.

Shallow embedding of:
  - `DocumentProcessor.chunk_text` (backend/app/features/documents/utils.py, default
    sliding-window algorithm),
  - `DocumentProcessor.get_optimal_chunking_strategy`,
  - `DocumentProcessor._extract_pdf_text` and `DocumentProcessor._extract_excel_text`,
  - `LlamaIndexRAGService.build_or_update_index`, `create_retriever_query_engine`
    and `query` (backend/app/services/llamaindex_service.py).

Python strings are modelled as `List Char`; file-system and external-provider
effects are modelled by explicit state passing and outcome oracles (`Except`).
-/

/-- Shorthand: characters of a string literal. -/
def cl (s : String) : List Char := s.toList

/-- Whitespace characters as recognized by Python `str.strip` on ASCII text. -/
def isPySpace (c : Char) : Bool :=
  c = ' ' || c = '\t' || c = '\n' || c = '\r' || c = '\x0B' || c = '\x0C'

/-- Remove leading whitespace (Python `str.lstrip`). -/
def lstrip : List Char → List Char
  | [] => []
  | c :: cs => if isPySpace c then lstrip cs else c :: cs

/-- Python `str.strip`: remove leading and trailing whitespace. -/
def pstrip (s : List Char) : List Char :=
  (lstrip ((lstrip s).reverse)).reverse

/-- Python slice `s[a:b]` for `0 ≤ a ≤ b`. -/
def pySlice (s : List Char) (a b : Nat) : List Char :=
  (s.take b).drop a

/-- Join a list of strings with a separator (Python `sep.join(parts)`). -/
def joinSep (sep : List Char) : List (List Char) → List Char
  | [] => []
  | [x] => x
  | x :: y :: xs => x ++ sep ++ joinSep sep (y :: xs)

/-- Python `"\n".join(parts)`. -/
def joinNL : List (List Char) → List Char := joinSep (cl "\n")

/-- Python `"\t".join(parts)`. -/
def tabJoin : List (List Char) → List Char := joinSep (cl "\t")

/-- Whether `d` occurs in `s` starting exactly at index `i`. -/
def matchesAt (s d : List Char) (i : Nat) : Bool :=
  pySlice s i (i + d.length) == d

/-- Downward scan used to implement Python `str.rfind`: the largest index
`i ≤ j` with `start ≤ i` at which `d` matches, if any. -/
def rfindDown (s d : List Char) (start : Nat) : Nat → Option Nat
  | 0 => if start ≤ 0 && matchesAt s d 0 then some 0 else none
  | j + 1 =>
    if start ≤ j + 1 && matchesAt s d (j + 1) then some (j + 1)
    else rfindDown s d start j

/-- Python `s.rfind(d, start, e)`: the largest index of an occurrence of `d`
fully contained in `s[start:e]`, as an `Option` instead of `-1`. -/
def rfind (s d : List Char) (start e : Nat) : Option Nat :=
  if d.length ≤ e then rfindDown s d start (e - d.length) else none

/-- Whether `needle` is an initial segment of `hay`. -/
def matchesFront : List Char → List Char → Bool
  | _, [] => true
  | [], _ :: _ => false
  | c :: cs, d :: ds => c == d && matchesFront cs ds

/-- Python substring test `needle in hay`. -/
def containsSub : List Char → List Char → Bool
  | [], needle => needle.isEmpty
  | c :: cs, needle => matchesFront (c :: cs) needle || containsSub cs needle

/-- Lower-case an ASCII letter (Python `str.lower` restricted to ASCII). -/
def asciiLower (c : Char) : Char :=
  if 'A' ≤ c && c ≤ 'Z' then Char.ofNat (c.toNat + 32) else c

/-- Python `str.lower` on ASCII text. -/
def lowerStr (s : List Char) : List Char := s.map asciiLower

/-! ### Lemmas about `lstrip` and `pstrip` -/

theorem lstrip_eq_nil_iff (s : List Char) :
    lstrip s = [] ↔ ∀ c ∈ s, isPySpace c = true := by
  induction s with
  | nil => simp [lstrip]
  | cons c cs ih =>
    by_cases hc : isPySpace c = true
    · simp [lstrip, hc, ih]
    · simp [lstrip, hc]

theorem forall_space_lstrip (s : List Char) :
    (∀ c ∈ lstrip s, isPySpace c = true) ↔ (∀ c ∈ s, isPySpace c = true) := by
  induction s with
  | nil => simp [lstrip]
  | cons c cs ih =>
    by_cases hc : isPySpace c = true
    · simp [lstrip, hc, ih]
    · simp [lstrip, hc]

theorem pstrip_eq_nil_iff (s : List Char) :
    pstrip s = [] ↔ ∀ c ∈ s, isPySpace c = true := by
  unfold pstrip
  rw [List.reverse_eq_nil_iff, lstrip_eq_nil_iff]
  constructor
  · intro h
    rw [← forall_space_lstrip]
    intro c hc
    exact h c (by simpa using hc)
  · intro h c hc
    have : c ∈ lstrip s := by simpa using hc
    exact (forall_space_lstrip s).2 h c this

theorem lstrip_length_le (s : List Char) : (lstrip s).length ≤ s.length := by
  induction s with
  | nil => simp [lstrip]
  | cons c cs ih =>
    by_cases hc : isPySpace c = true
    · simp only [lstrip, hc, if_true]
      exact Nat.le_trans ih (Nat.le_succ _)
    · simp [lstrip, hc]

theorem pstrip_length_le (s : List Char) : (pstrip s).length ≤ s.length := by
  unfold pstrip
  rw [List.length_reverse]
  calc (lstrip ((lstrip s).reverse)).length
      ≤ ((lstrip s).reverse).length := lstrip_length_le _
    _ = (lstrip s).length := List.length_reverse _
    _ ≤ s.length := lstrip_length_le _

theorem lstrip_head_cases (s : List Char) :
    lstrip s = [] ∨ ∃ c cs, lstrip s = c :: cs ∧ isPySpace c = false := by
  induction s with
  | nil => exact Or.inl rfl
  | cons c cs ih =>
    by_cases hc : isPySpace c = true
    · simpa [lstrip, hc] using ih
    · exact Or.inr ⟨c, cs, by simp [lstrip, hc], by simpa using hc⟩

theorem lstrip_cons_of_not_space (c : Char) (cs : List Char) (h : isPySpace c = false) :
    lstrip (c :: cs) = c :: cs := by
  simp [lstrip, h]

theorem lstrip_suffix (s : List Char) : ∃ t, t ++ lstrip s = s := by
  induction s with
  | nil => exact ⟨[], rfl⟩
  | cons c cs ih =>
    by_cases hc : isPySpace c = true
    · obtain ⟨t, ht⟩ := ih
      exact ⟨c :: t, by simp [lstrip, hc, ht]⟩
    · exact ⟨[], by simp [lstrip, hc]⟩

theorem lstrip_getLast? (s : List Char) (h : lstrip s ≠ []) :
    (lstrip s).getLast? = s.getLast? := by
  obtain ⟨t, ht⟩ := lstrip_suffix s
  conv_rhs => rw [← ht]
  exact (List.getLast?_append_of_ne_nil t h).symm

theorem lstrip_head?_not_space (s : List Char) (c : Char)
    (h : (lstrip s).head? = some c) : isPySpace c = false := by
  rcases lstrip_head_cases s with h0 | ⟨d, ds, hd, hsp⟩
  · rw [h0] at h; simp at h
  · rw [hd] at h
    simp only [List.head?_cons, Option.some.injEq] at h
    rwa [← h]

theorem lstrip_of_head_not_space (t : List Char) (c : Char)
    (hh : t.head? = some c) (hc : isPySpace c = false) : lstrip t = t := by
  cases t with
  | nil => simp at hh
  | cons d ds =>
    simp only [List.head?_cons, Option.some.injEq] at hh
    rw [← hh] at hc
    exact lstrip_cons_of_not_space d ds hc

theorem pstrip_idem (s : List Char) : pstrip (pstrip s) = pstrip s := by
  by_cases hnil : pstrip s = []
  · rw [hnil]; rfl
  · -- the stripped string has a non-space first and last character
    have hv : lstrip ((lstrip s).reverse) ≠ [] := by
      intro h
      apply hnil
      unfold pstrip
      rw [h]; rfl
    -- head of pstrip s is the last char of lstrip ((lstrip s).reverse) reversed:
    -- first, the reversed form: (pstrip s).reverse = lstrip ((lstrip s).reverse)
    have hrev : (pstrip s).reverse = lstrip ((lstrip s).reverse) := by
      unfold pstrip
      rw [List.reverse_reverse]
    -- last character of pstrip s = head of lstrip ((lstrip s).reverse): not a space
    have hlast : ∀ c, ((pstrip s).reverse).head? = some c → isPySpace c = false := by
      intro c hc
      rw [hrev] at hc
      exact lstrip_head?_not_space _ _ hc
    -- head character of pstrip s: equals the last of (lstrip s).reverse, i.e. head of lstrip s
    have hlsnil : lstrip s ≠ [] := by
      intro h
      apply hv
      rw [h]
      rfl
    have hhead : ∀ c, (pstrip s).head? = some c → isPySpace c = false := by
      intro c hc
      have h1 : (pstrip s).head? = (lstrip ((lstrip s).reverse)).getLast? := by
        unfold pstrip
        rw [List.head?_reverse]
      have h2 : (lstrip ((lstrip s).reverse)).getLast? = ((lstrip s).reverse).getLast? :=
        lstrip_getLast? _ hv
      have h3 : ((lstrip s).reverse).getLast? = (lstrip s).head? := by
        rw [List.getLast?_reverse]
      rcases lstrip_head_cases s with h0 | ⟨d, ds, hd, hsp⟩
      · exact absurd h0 hlsnil
      · rw [h1, h2, h3, hd] at hc
        simp only [List.head?_cons, Option.some.injEq] at hc
        rwa [← hc]
    -- now both lstrip applications are the identity
    obtain ⟨c, hc⟩ : ∃ c, (pstrip s).head? = some c := by
      cases hps : pstrip s with
      | nil => exact absurd hps hnil
      | cons a l => exact ⟨a, List.head?_cons⟩
    obtain ⟨c2, hc2⟩ : ∃ c2, ((pstrip s).reverse).head? = some c2 := by
      cases hps : (pstrip s).reverse with
      | nil =>
        rw [hrev] at hps
        exact absurd hps hv
      | cons a l => exact ⟨a, List.head?_cons⟩
    have e1 : lstrip (pstrip s) = pstrip s :=
      lstrip_of_head_not_space _ _ hc (hhead _ hc)
    have e2 : lstrip ((pstrip s).reverse) = (pstrip s).reverse :=
      lstrip_of_head_not_space _ _ hc2 (hlast _ hc2)
    show (lstrip ((lstrip (pstrip s)).reverse)).reverse = pstrip s
    rw [e1, e2, List.reverse_reverse]

/-! ### DocumentProcessor.chunk_text (default sliding-window algorithm)

Source: backend/app/features/documents/utils.py, lines 325-367.  When
LlamaIndex is available and a non-default strategy is requested the code
delegates to external library splitters; the in-repository algorithm is the
default path modelled here. -/

/-- The delimiter priority list of the backward boundary search:
double newline, newline, full-width period, period. -/
def delims : List (List Char) := [cl "\n\n", cl "\n", cl "。", cl "."]

/-- The for-loop over delimiters: the first delimiter whose last occurrence
index is strictly greater than `start` determines the new window end
(occurrence index plus delimiter length). -/
def findDelimEnd (content : List Char) (start e : Nat) : List (List Char) → Option Nat
  | [] => none
  | d :: ds =>
    match rfind content d start e with
    | some i => if start < i then some (i + d.length) else findDelimEnd content start e ds
    | none => findDelimEnd content start e ds

/-- The right edge of the window that starts at `start`:
`end = min(start + chunk_size, content_length)`, moved back to a sentence
boundary when the window's right edge falls inside the text. -/
def chunkEnd (content : List Char) (chunk_size start : Nat) : Nat :=
  let n := content.length
  let e0 := min (start + chunk_size) n
  if e0 < n then
    match findDelimEnd content start e0 delims with
    | some e1 => e1
    | none => e0
  else e0

/-- `start = max(start + 1, end - overlap)`: the next window start. -/
def nextStart (content : List Char) (chunk_size overlap start : Nat) : Nat :=
  max (start + 1) (chunkEnd content chunk_size start - overlap)

/-- The while-loop of `chunk_text`, with explicit fuel (the fuel
`content.length` always suffices because the start strictly increases). -/
def chunkLoop (content : List Char) (chunk_size overlap : Nat) : Nat → Nat → List (List Char)
  | 0, _ => []
  | fuel + 1, start =>
    if start < content.length then
      let e := chunkEnd content chunk_size start
      let c := pstrip (pySlice content start e)
      let rest := chunkLoop content chunk_size overlap fuel (nextStart content chunk_size overlap start)
      if c = [] then rest else c :: rest
    else []

/-- The same loop, recording the source window `(start, end)` of every
emitted chunk instead of its text. -/
def chunkWindows (content : List Char) (chunk_size overlap : Nat) : Nat → Nat → List (Nat × Nat)
  | 0, _ => []
  | fuel + 1, start =>
    if start < content.length then
      let e := chunkEnd content chunk_size start
      let rest := chunkWindows content chunk_size overlap fuel (nextStart content chunk_size overlap start)
      if pstrip (pySlice content start e) = [] then rest else (start, e) :: rest
    else []

/-- `DocumentProcessor.chunk_text` (default strategy path): empty result on
whitespace-only input, otherwise the sliding-window loop from position 0. -/
def chunk_text (content : List Char) (chunk_size overlap : Nat) : List (List Char) :=
  if pstrip content = [] then []
  else chunkLoop content chunk_size overlap content.length 0

/-! ### Support lemmas for the chunking loop -/

theorem rfindDown_spec (s d : List Char) (start : Nat) :
    ∀ j i, rfindDown s d start j = some i → start ≤ i ∧ i ≤ j := by
  intro j
  induction j with
  | zero =>
    intro i h
    simp only [rfindDown] at h
    by_cases hb : (start ≤ 0 && matchesAt s d 0) = true
    · rw [if_pos hb] at h
      cases h
      simp only [Bool.and_eq_true, decide_eq_true_eq] at hb
      exact ⟨hb.1, Nat.le_refl 0⟩
    · rw [if_neg hb] at h
      cases h
  | succ j ih =>
    intro i h
    simp only [rfindDown] at h
    by_cases hb : (start ≤ j + 1 && matchesAt s d (j + 1)) = true
    · rw [if_pos hb] at h
      cases h
      simp only [Bool.and_eq_true, decide_eq_true_eq] at hb
      exact ⟨hb.1, Nat.le_refl _⟩
    · rw [if_neg hb] at h
      obtain ⟨h1, h2⟩ := ih i h
      exact ⟨h1, Nat.le_trans h2 (Nat.le_succ j)⟩

theorem rfind_spec (s d : List Char) (start e i : Nat)
    (h : rfind s d start e = some i) : start ≤ i ∧ i + d.length ≤ e := by
  unfold rfind at h
  by_cases hd : d.length ≤ e
  · rw [if_pos hd] at h
    obtain ⟨h1, h2⟩ := rfindDown_spec s d start (e - d.length) i h
    exact ⟨h1, by omega⟩
  · rw [if_neg hd] at h
    cases h

theorem findDelimEnd_spec (content : List Char) (start e : Nat) :
    ∀ L : List (List Char), (∀ d ∈ L, d ≠ []) →
      ∀ e1, findDelimEnd content start e L = some e1 → start + 1 < e1 ∧ e1 ≤ e := by
  intro L
  induction L with
  | nil => intro _ e1 h; cases h
  | cons d ds ih =>
    intro hne e1 h
    cases hr : rfind content d start e with
    | none =>
      simp only [findDelimEnd, hr] at h
      exact ih (fun x hx => hne x (List.mem_cons_of_mem d hx)) e1 h
    | some i =>
      simp only [findDelimEnd, hr] at h
      by_cases hi : start < i
      · rw [if_pos hi] at h
        cases h
        obtain ⟨_, h2⟩ := rfind_spec content d start e i hr
        have hd : d ≠ [] := hne d (List.mem_cons_self d ds)
        have hdl : 1 ≤ d.length := by
          cases d with
          | nil => exact absurd rfl hd
          | cons _ _ => simp
        exact ⟨by omega, h2⟩
      · rw [if_neg hi] at h
        exact ih (fun x hx => hne x (List.mem_cons_of_mem d hx)) e1 h

theorem delims_ne_nil : ∀ d ∈ delims, d ≠ [] := by decide

theorem chunkEnd_le_length (content : List Char) (cs start : Nat) :
    chunkEnd content cs start ≤ content.length := by
  unfold chunkEnd
  by_cases h : min (start + cs) content.length < content.length
  · rw [if_pos h]
    cases hf : findDelimEnd content start (min (start + cs) content.length) delims with
    | none => exact Nat.min_le_right _ _
    | some e1 =>
      obtain ⟨_, h2⟩ := findDelimEnd_spec content start _ delims delims_ne_nil e1 hf
      exact Nat.le_trans h2 (Nat.min_le_right _ _)
  · rw [if_neg h]
    exact Nat.min_le_right _ _

theorem chunkEnd_le_add (content : List Char) (cs start : Nat) :
    chunkEnd content cs start ≤ start + cs := by
  unfold chunkEnd
  by_cases h : min (start + cs) content.length < content.length
  · rw [if_pos h]
    cases hf : findDelimEnd content start (min (start + cs) content.length) delims with
    | none => exact Nat.min_le_left _ _
    | some e1 =>
      obtain ⟨_, h2⟩ := findDelimEnd_spec content start _ delims delims_ne_nil e1 hf
      exact Nat.le_trans h2 (Nat.min_le_left _ _)
  · rw [if_neg h]
    exact Nat.min_le_left _ _

theorem lt_chunkEnd (content : List Char) (cs start : Nat)
    (h1 : start < content.length) (h2 : 1 ≤ cs) : start < chunkEnd content cs start := by
  unfold chunkEnd
  have hmin : start < min (start + cs) content.length := by
    exact Nat.lt_min.2 ⟨by omega, h1⟩
  by_cases h : min (start + cs) content.length < content.length
  · rw [if_pos h]
    cases hf : findDelimEnd content start (min (start + cs) content.length) delims with
    | none => exact hmin
    | some e1 =>
      obtain ⟨hgt, _⟩ := findDelimEnd_spec content start _ delims delims_ne_nil e1 hf
      show start < e1
      omega
  · rw [if_neg h]
    exact hmin

theorem mem_of_mem_pySlice {c : Char} {content : List Char} {a b : Nat}
    (h : c ∈ pySlice content a b) : c ∈ content :=
  List.mem_of_mem_take (List.mem_of_mem_drop h)

theorem get_mem_pySlice (content : List Char) (a b i : Nat) (hi : i < content.length)
    (h1 : a ≤ i) (h2 : i < b) (h3 : b ≤ content.length) :
    content.get ⟨i, hi⟩ ∈ pySlice content a b := by
  unfold pySlice
  have hlen : ((content.take b).drop a).length = b - a := by
    rw [List.length_drop, List.length_take]
    omega
  have hia : i - a < ((content.take b).drop a).length := by omega
  have hEq : ((content.take b).drop a).get ⟨i - a, hia⟩ = content.get ⟨i, hi⟩ := by
    show ((content.take b).drop a)[i - a] = content[i]
    rw [List.getElem_drop, List.getElem_take]
    simp only [show a + (i - a) = i from by omega]
  rw [← hEq]
  exact List.get_mem _ _ _

theorem chunkLoop_eq_map (content : List Char) (cs ov : Nat) :
    ∀ fuel start, chunkLoop content cs ov fuel start =
      (chunkWindows content cs ov fuel start).map
        (fun p => pstrip (pySlice content p.1 p.2)) := by
  intro fuel
  induction fuel with
  | zero => intro start; rfl
  | succ fuel ih =>
    intro start
    simp only [chunkLoop, chunkWindows]
    by_cases h : start < content.length
    · rw [if_pos h, if_pos h]
      by_cases hc : pstrip (pySlice content start (chunkEnd content cs start)) = []
      · simp [hc, ih]
      · simp [hc, ih]
    · rw [if_neg h, if_neg h]
      rfl

theorem chunkLoop_mem (content : List Char) (cs ov : Nat) :
    ∀ fuel start c, c ∈ chunkLoop content cs ov fuel start →
      c ≠ [] ∧ ∃ a, c = pstrip (pySlice content a (chunkEnd content cs a)) := by
  intro fuel
  induction fuel with
  | zero => intro start c h; simp [chunkLoop] at h
  | succ fuel ih =>
    intro start c h
    simp only [chunkLoop] at h
    by_cases hs : start < content.length
    · rw [if_pos hs] at h
      by_cases hc : pstrip (pySlice content start (chunkEnd content cs start)) = []
      · rw [if_pos hc] at h
        exact ih _ c h
      · rw [if_neg hc] at h
        rcases List.mem_cons.1 h with h1 | h1
        · rw [h1]
          exact ⟨hc, start, rfl⟩
        · exact ih _ c h1
    · rw [if_neg hs] at h
      simp at h

theorem chunkWindows_cover (content : List Char) (cs ov : Nat) (hcs : 1 ≤ cs) :
    ∀ fuel start i, (hi : i < content.length) → start ≤ i →
      content.length - start ≤ fuel →
      isPySpace (content.get ⟨i, hi⟩) = false →
      ∃ p ∈ chunkWindows content cs ov fuel start, p.1 ≤ i ∧ i < p.2 := by
  intro fuel
  induction fuel with
  | zero => intro start i hi hsi hfuel hsp; omega
  | succ fuel ih =>
    intro start i hi hsi hfuel hsp
    have hs : start < content.length := by omega
    simp only [chunkWindows, if_pos hs]
    by_cases hie : i < chunkEnd content cs start
    · have hmem : content.get ⟨i, hi⟩ ∈ pySlice content start (chunkEnd content cs start) :=
        get_mem_pySlice content start _ i hi hsi hie (chunkEnd_le_length content cs start)
      have hne : pstrip (pySlice content start (chunkEnd content cs start)) ≠ [] := by
        intro hnil
        have hx := (pstrip_eq_nil_iff _).1 hnil _ hmem
        rw [hsp] at hx
        cases hx
      rw [if_neg hne]
      exact ⟨(start, chunkEnd content cs start), List.mem_cons_self _ _, hsi, hie⟩
    · have hse : start < chunkEnd content cs start := lt_chunkEnd content cs start hs hcs
      have hnext : nextStart content cs ov start ≤ i := by
        unfold nextStart
        exact Nat.max_le.2 ⟨by omega, by omega⟩
      have h1 : start + 1 ≤ nextStart content cs ov start := Nat.le_max_left _ _
      have hfuel2 : content.length - nextStart content cs ov start ≤ fuel := by omega
      obtain ⟨p, hp, hp1, hp2⟩ := ih (nextStart content cs ov start) i hi hnext hfuel2 hsp
      by_cases hemit : pstrip (pySlice content start (chunkEnd content cs start)) = []
      · rw [if_pos hemit]
        exact ⟨p, hp, hp1, hp2⟩
      · rw [if_neg hemit]
        exact ⟨p, List.mem_cons_of_mem _ hp, hp1, hp2⟩

theorem chunkWindows_nil_of_space (content : List Char) (cs ov : Nat)
    (h : ∀ c ∈ content, isPySpace c = true) :
    ∀ fuel start, chunkWindows content cs ov fuel start = [] := by
  intro fuel
  induction fuel with
  | zero => intro start; rfl
  | succ fuel ih =>
    intro start
    simp only [chunkWindows]
    by_cases hs : start < content.length
    · rw [if_pos hs]
      have hemit : pstrip (pySlice content start (chunkEnd content cs start)) = [] := by
        rw [pstrip_eq_nil_iff]
        intro c hc
        exact h c (mem_of_mem_pySlice hc)
      rw [if_pos hemit, ih]
    · rw [if_neg hs]

/-! ### Claims C1, C2, C10 -/

/-- C2: the sliding-window loop of `chunk_text` always makes strict forward
progress: the next window start is `max(start + 1, end - overlap)` and is
strictly greater than the current start, for every input text, every
chunk_size and every overlap (including overlap ≥ chunk_size); hence the
loop terminates. -/
theorem chunk_text_forward_progress (content : List Char) (chunk_size overlap start : Nat) :
    nextStart content chunk_size overlap start
        = max (start + 1) (chunkEnd content chunk_size start - overlap) ∧
    start < nextStart content chunk_size overlap start :=
  ⟨rfl, Nat.lt_of_lt_of_le (Nat.lt_succ_self start) (Nat.le_max_left _ _)⟩

/-- C1 counterexample: on input "a   b" with chunk_size 2 and overlap 0 the
emitted chunks are "a" and "b" with source windows [0,2) and [4,5); input
position 2 lies in no emitted chunk's window, so the emitted windows do not
cover all of the input text (only its non-whitespace characters). -/
theorem chunk_text_cover_counterexample :
    chunk_text (cl "a   b") 2 0 = [cl "a", cl "b"] ∧
    chunkWindows (cl "a   b") 2 0 (cl "a   b").length 0 = [(0, 2), (4, 5)] ∧
    ¬ ∃ p ∈ chunkWindows (cl "a   b") 2 0 (cl "a   b").length 0, p.1 ≤ 2 ∧ 2 < p.2 := by
  decide

/-- C1 (amended): for chunk_size ≥ 1, `chunk_text` returns the empty sequence
iff the input is empty or whitespace-only; every returned chunk is non-empty
and whitespace-trimmed; the returned sequence is exactly, in order, the
trimmed text of the emitted source windows; and those windows cover every
non-whitespace character of the input. -/
theorem chunk_text_contract (content : List Char) (chunk_size overlap : Nat)
    (hcs : 1 ≤ chunk_size) :
    (chunk_text content chunk_size overlap = [] ↔ ∀ c ∈ content, isPySpace c = true) ∧
    (∀ c ∈ chunk_text content chunk_size overlap, c ≠ [] ∧ pstrip c = c) ∧
    chunk_text content chunk_size overlap =
      (chunkWindows content chunk_size overlap content.length 0).map
        (fun p => pstrip (pySlice content p.1 p.2)) ∧
    (∀ i, (hi : i < content.length) → isPySpace (content.get ⟨i, hi⟩) = false →
      ∃ p ∈ chunkWindows content chunk_size overlap content.length 0,
        p.1 ≤ i ∧ i < p.2) := by
  refine ⟨⟨?_, ?_⟩, ?_, ?_, ?_⟩
  · intro h
    by_contra hall
    push_neg at hall
    obtain ⟨c, hc, hcsp⟩ := hall
    obtain ⟨⟨i, hi⟩, hci⟩ := List.mem_iff_get.1 hc
    have hsp : isPySpace (content.get ⟨i, hi⟩) = false := by
      rw [hci]
      exact Bool.not_eq_true _ ▸ (Bool.eq_false_iff.2 hcsp)
    obtain ⟨p, hp, _, _⟩ :=
      chunkWindows_cover content chunk_size overlap hcs content.length 0 i hi
        (Nat.zero_le i) (by omega) hsp
    have hne : pstrip content ≠ [] := by
      intro hnil
      exact hcsp ((pstrip_eq_nil_iff content).1 hnil c hc)
    unfold chunk_text at h
    rw [if_neg hne, chunkLoop_eq_map, List.map_eq_nil_iff] at h
    rw [h] at hp
    simp at hp
  · intro h
    unfold chunk_text
    rw [if_pos ((pstrip_eq_nil_iff content).2 h)]
  · intro c hc
    unfold chunk_text at hc
    by_cases hp : pstrip content = []
    · rw [if_pos hp] at hc
      simp at hc
    · rw [if_neg hp] at hc
      obtain ⟨hne, a, ha⟩ := chunkLoop_mem content _ _ _ _ c hc
      exact ⟨hne, by rw [ha, pstrip_idem]⟩
  · unfold chunk_text
    by_cases hp : pstrip content = []
    · rw [if_pos hp,
        chunkWindows_nil_of_space content _ _ ((pstrip_eq_nil_iff content).1 hp) _ 0]
      rfl
    · rw [if_neg hp]
      exact chunkLoop_eq_map content _ _ _ 0
  · intro i hi hsp
    exact chunkWindows_cover content chunk_size overlap hcs content.length 0 i hi
      (Nat.zero_le i) (by omega) hsp

/-- Witness for C1's amended theorem at a concrete input. -/
theorem chunk_text_contract_witness :
    1 ≤ 2 ∧
    ((chunk_text (cl "ab.cd") 2 1 = [] ↔ ∀ c ∈ cl "ab.cd", isPySpace c = true) ∧
     (∀ c ∈ chunk_text (cl "ab.cd") 2 1, c ≠ [] ∧ pstrip c = c) ∧
     chunk_text (cl "ab.cd") 2 1 =
       (chunkWindows (cl "ab.cd") 2 1 (cl "ab.cd").length 0).map
         (fun p => pstrip (pySlice (cl "ab.cd") p.1 p.2)) ∧
     (∀ i, (hi : i < (cl "ab.cd").length) →
        isPySpace ((cl "ab.cd").get ⟨i, hi⟩) = false →
        ∃ p ∈ chunkWindows (cl "ab.cd") 2 1 (cl "ab.cd").length 0,
          p.1 ≤ i ∧ i < p.2)) :=
  ⟨by decide, chunk_text_contract (cl "ab.cd") 2 1 (by decide)⟩

/-- C10: every chunk emitted by the default sliding-window algorithm has
length at most chunk_size: the backward delimiter search only ever moves the
window's right edge leftward, and trimming shrinks the window text further. -/
theorem chunk_text_size_bound (content : List Char) (chunk_size overlap : Nat)
    (hcs : 1 ≤ chunk_size) :
    ∀ c ∈ chunk_text content chunk_size overlap, c.length ≤ chunk_size := by
  intro c hc
  unfold chunk_text at hc
  by_cases hp : pstrip content = []
  · rw [if_pos hp] at hc
    simp at hc
  · rw [if_neg hp] at hc
    obtain ⟨_, a, ha⟩ := chunkLoop_mem content _ _ _ _ c hc
    rw [ha]
    calc (pstrip (pySlice content a (chunkEnd content chunk_size a))).length
        ≤ (pySlice content a (chunkEnd content chunk_size a)).length := pstrip_length_le _
      _ ≤ chunk_size := by
          unfold pySlice
          rw [List.length_drop, List.length_take]
          have := chunkEnd_le_add content chunk_size a
          omega

/-- Witness for C10 at a concrete input. -/
theorem chunk_text_size_bound_witness :
    1 ≤ 3 ∧ ∀ c ∈ chunk_text (cl "hello world.") 3 1, c.length ≤ 3 :=
  ⟨by decide, chunk_text_size_bound (cl "hello world.") 3 1 (by decide)⟩

/-! ### DocumentProcessor.get_optimal_chunking_strategy

Source: backend/app/features/documents/utils.py, lines 434-462.  The Python
comparisons against `len(file_types) * 0.5 / 0.3 / 0.4` are IEEE-double
computations; for integer counts and lengths the rounded products
`fl(n * fl(0.3))` and `fl(n * fl(0.4))` coincide with the exact rational
values at every integer threshold, so the integer comparisons
`2*pdf > n`, `10*md > 3*n`, `5*docx > 2*n` are exact translations. -/

/-- `DocumentProcessor.get_optimal_chunking_strategy`, translated from the
source: keyword classification of the declared project type first, then the
file-extension histogram, then the safe default. -/
def get_optimal_chunking_strategy (project_type : Option (List Char))
    (file_types : List (List Char)) : List Char :=
  let byFiles : List Char :=
    if file_types.isEmpty = false then
      let n := file_types.length
      let pdf_count := file_types.countP (fun ft => lowerStr ft == cl ".pdf")
      let md_count := file_types.countP (fun ft => lowerStr ft == cl ".md")
      let docx_count := file_types.countP (fun ft => lowerStr ft == cl ".docx")
      if 2 * pdf_count > n then cl "sentence"
      else if 10 * md_count > 3 * n then cl "recursive"
      else if 5 * docx_count > 2 * n then cl "sentence"
      else cl "sentence"
    else cl "sentence"
  match project_type with
  | some pt0 =>
    if pt0.isEmpty = false then
      let pt := lowerStr pt0
      if containsSub pt (cl "research") || containsSub pt (cl "academic") then cl "semantic"
      else if containsSub pt (cl "legal") || containsSub pt (cl "contract") then cl "sentence"
      else if containsSub pt (cl "technical") || containsSub pt (cl "manual") then cl "recursive"
      else if containsSub pt (cl "code") || containsSub pt (cl "development") then cl "token"
      else byFiles
    else byFiles
  | none => byFiles

/-- Case-insensitive substring test, as worded by the claim. -/
def containsCI (hay needle : List Char) : Bool :=
  containsSub (lowerStr hay) (lowerStr needle)

/-- The strategy decision exactly as the claim words it: keyword
classification of the declared type (case-insensitive substring), then the
extension histogram with strict thresholds of 50% PDFs, 30% markdown and
40% Word documents, then the default of sentence. -/
def claimOptimalStrategy (project_type : Option (List Char))
    (file_types : List (List Char)) : List Char :=
  let n := file_types.length
  let pdf := file_types.countP (fun ft => lowerStr ft == cl ".pdf")
  let md := file_types.countP (fun ft => lowerStr ft == cl ".md")
  let docx := file_types.countP (fun ft => lowerStr ft == cl ".docx")
  let histogram : List Char :=
    if 2 * pdf > n then cl "sentence"
    else if 10 * md > 3 * n then cl "recursive"
    else if 5 * docx > 2 * n then cl "sentence"
    else cl "sentence"
  match project_type with
  | some pt =>
    if containsCI pt (cl "research") || containsCI pt (cl "academic") then cl "semantic"
    else if containsCI pt (cl "legal") || containsCI pt (cl "contract") then cl "sentence"
    else if containsCI pt (cl "technical") || containsCI pt (cl "manual") then cl "recursive"
    else if containsCI pt (cl "code") || containsCI pt (cl "development") then cl "token"
    else histogram
  | none => histogram

/-- C5: the strategy selector is a deterministic function of the declared
project type and the file-type list, and it implements exactly the decision
order stated by the claim: keyword classes semantic/sentence/recursive/token,
then the PDF greater than 50%, markdown greater than 30%, Word greater than
40% histogram rules, then sentence. -/
theorem optimal_strategy_matches_claim :
    ∀ project_type file_types,
      get_optimal_chunking_strategy project_type file_types =
        claimOptimalStrategy project_type file_types := by
  intro project_type file_types
  have hres : lowerStr (cl "research") = cl "research" := by decide
  have haca : lowerStr (cl "academic") = cl "academic" := by decide
  have hleg : lowerStr (cl "legal") = cl "legal" := by decide
  have hcon : lowerStr (cl "contract") = cl "contract" := by decide
  have htec : lowerStr (cl "technical") = cl "technical" := by decide
  have hman : lowerStr (cl "manual") = cl "manual" := by decide
  have hcod : lowerStr (cl "code") = cl "code" := by decide
  have hdev : lowerStr (cl "development") = cl "development" := by decide
  have e1 : containsCI [] (cl "research") = false := by decide
  have e2 : containsCI [] (cl "academic") = false := by decide
  have e3 : containsCI [] (cl "legal") = false := by decide
  have e4 : containsCI [] (cl "contract") = false := by decide
  have e5 : containsCI [] (cl "technical") = false := by decide
  have e6 : containsCI [] (cl "manual") = false := by decide
  have e7 : containsCI [] (cl "code") = false := by decide
  have e8 : containsCI [] (cl "development") = false := by decide
  cases project_type with
  | none =>
    cases file_types with
    | nil =>
      simp [get_optimal_chunking_strategy, claimOptimalStrategy, List.countP_nil]
    | cons a l =>
      simp [get_optimal_chunking_strategy, claimOptimalStrategy]
  | some pt =>
    cases pt with
    | nil =>
      cases file_types with
      | nil =>
        simp [get_optimal_chunking_strategy, claimOptimalStrategy,
          e1, e2, e3, e4, e5, e6, e7, e8, List.countP_nil]
      | cons a l =>
        simp [get_optimal_chunking_strategy, claimOptimalStrategy,
          e1, e2, e3, e4, e5, e6, e7, e8]
    | cons c cs =>
      cases file_types with
      | nil =>
        simp [get_optimal_chunking_strategy, claimOptimalStrategy, containsCI,
          hres, haca, hleg, hcon, htec, hman, hcod, hdev, List.countP_nil]
      | cons a l =>
        simp [get_optimal_chunking_strategy, claimOptimalStrategy, containsCI,
          hres, haca, hleg, hcon, htec, hman, hcod, hdev]

/-! ### DocumentProcessor._extract_pdf_text

Source: backend/app/features/documents/utils.py, lines 172-187.  A PDF file is
modelled by the outcome of opening it: either the container fails to open
(outer exception) or it yields a list of pages, each of which either raises
during text extraction or yields `extract_text()`, which may be None
(rendered as the empty string by the source's `or ""`). -/

/-- The page loop of `_extract_pdf_text`: a page that raises is skipped
(`continue`), a readable page contributes `extract_text() or ""`. -/
def pdfPageTexts : List (Except (List Char) (Option (List Char))) → List (List Char)
  | [] => []
  | Except.error _ :: ps => pdfPageTexts ps
  | Except.ok t :: ps =>
    (match t with
     | some s => s
     | none => []) :: pdfPageTexts ps

/-- `DocumentProcessor._extract_pdf_text`: raises only when the container
fails to open, otherwise joins the per-page texts with newlines. -/
def extract_pdf_text
    (pdf : Except (List Char) (List (Except (List Char) (Option (List Char))))) :
    Except (List Char) (List Char) :=
  match pdf with
  | Except.error e => Except.error (cl "PDFテキスト抽出エラー: " ++ e)
  | Except.ok pages => Except.ok (joinNL (pdfPageTexts pages))

theorem pdfPageTexts_eq_filterMap :
    ∀ pages, pdfPageTexts pages =
      (pages.filterMap Except.toOption).map (fun t => t.getD []) := by
  intro pages
  induction pages with
  | nil => rfl
  | cons p ps ih =>
    cases p with
    | error e => simp [pdfPageTexts, Except.toOption, ih]
    | ok t =>
      cases t with
      | none => simp [pdfPageTexts, Except.toOption, ih]
      | some s => simp [pdfPageTexts, Except.toOption, ih]

/-- C8: PDF extraction is best-effort per page.  For every openable PDF the
result is the newline-joined text of exactly the readable pages, in order
(an exception on an individual page is swallowed and the page is skipped);
an extraction error is raised only when opening the whole file fails; and on
a concrete three-page document whose second page throws, the result still
contains pages one and three. -/
theorem extract_pdf_best_effort :
    (∀ pages, extract_pdf_text (Except.ok pages) =
        Except.ok (joinNL ((pages.filterMap Except.toOption).map (fun t => t.getD [])))) ∧
    (∀ e, extract_pdf_text (Except.error e) =
        Except.error (cl "PDFテキスト抽出エラー: " ++ e)) ∧
    extract_pdf_text (Except.ok [Except.ok (some (cl "page one")),
        Except.error (cl "page two broke"), Except.ok (some (cl "page three"))]) =
      Except.ok (cl "page one\npage three") := by
  refine ⟨?_, ?_, ?_⟩
  · intro pages
    simp [extract_pdf_text, pdfPageTexts_eq_filterMap]
  · intro e
    rfl
  · rfl

/-! ### DocumentProcessor._extract_excel_text

Source: backend/app/features/documents/utils.py, lines 201-225.  A workbook
is modelled as a list of sheets, each a name together with rows of cells; a
cell is either None or its `str(...)` rendering. -/

/-- `row_text` and the blank-row test of the source: a row has content when
some cell's string strips to non-empty. -/
def rowTextOf (row : List (Option (List Char))) : List (List Char) :=
  row.map (fun cell =>
    match cell with
    | some s => s
    | none => [])

/-- The source's `any(cell.strip() for cell in row_text)`. -/
def rowHasContent (row : List (Option (List Char))) : Bool :=
  (rowTextOf row).any (fun s => !(pstrip s).isEmpty)

/-- The source's `sheet_text` accumulator: the sheet header line followed by
the tab-joined text of every row that has content. -/
def sheet_text (name : List Char) (rows : List (List (Option (List Char)))) :
    List (List Char) :=
  (cl "[Sheet: " ++ name ++ cl "]") :: (rows.filter rowHasContent).map
    (fun r => tabJoin (rowTextOf r))

/-- The `text_parts` loop of `_extract_excel_text`: a sheet contributes its
lines plus a blank separator line only when it has content beyond the header
(`len(sheet_text) > 1`). -/
def excelParts : List (List Char × List (List (Option (List Char)))) → List (List Char)
  | [] => []
  | (name, rows) :: ws =>
    let st := sheet_text name rows
    (if 1 < st.length then st ++ [[]] else []) ++ excelParts ws

/-- `DocumentProcessor._extract_excel_text` on an openable workbook. -/
def extract_excel_text (wb : List (List Char × List (List (Option (List Char))))) :
    List Char :=
  joinNL (excelParts wb)

/-- The sheet rendering exactly as the claim words it: a header line followed
by one tab-joined line per row, blank rows rendered as empty strings. -/
def claimExcelSheetLines (name : List Char)
    (rows : List (List (Option (List Char)))) : List (List Char) :=
  (cl "[Sheet: " ++ name ++ cl "]") :: rows.map
    (fun r => if rowHasContent r then tabJoin (rowTextOf r) else [])

/-- The whole-workbook rendering as the claim words it: sheet blocks with a
blank line separating consecutive sheets. -/
def claimExcelText (wb : List (List Char × List (List (Option (List Char))))) :
    List Char :=
  joinNL (List.intercalate [[]] (wb.map (fun s => claimExcelSheetLines s.1 s.2)))

/-- C9 counterexample: on a workbook with sheet "S" and rows ("A"), (blank),
("B"), the source skips the blank row entirely (and appends a trailing blank
separator line), so the output is not one line per row as the claim states:
the code yields "[Sheet: S]\nA\nB\n" where the claim's wording demands
"[Sheet: S]\nA\n\nB". -/
theorem extract_excel_counterexample :
    extract_excel_text [(cl "S", [[some (cl "A")], [none], [some (cl "B")]])] =
      cl "[Sheet: S]\nA\nB\n" ∧
    claimExcelText [(cl "S", [[some (cl "A")], [none], [some (cl "B")]])] =
      cl "[Sheet: S]\nA\n\nB" ∧
    extract_excel_text [(cl "S", [[some (cl "A")], [none], [some (cl "B")]])] ≠
      claimExcelText [(cl "S", [[some (cl "A")], [none], [some (cl "B")]])] := by
  decide

/-- C9 (amended): for each sheet that has at least one row with content the
output contains the header line followed by one tab-joined line per
content-bearing row (blank cells rendered as empty strings) and a trailing
blank line; blank rows and contentless sheets are omitted entirely.  On the
claim's concrete workbook (sheet "Sheet1" with rows ("A","B") and ("1","2"))
the extracted text contains "[Sheet: Sheet1]", "A\tB" and "1\t2". -/
theorem extract_excel_amended :
    (∀ wb, excelParts wb =
      (wb.map (fun s =>
        if ((s.2.filter rowHasContent).isEmpty) then []
        else (cl "[Sheet: " ++ s.1 ++ cl "]") ::
          ((s.2.filter rowHasContent).map (fun r => tabJoin (rowTextOf r)) ++ [[]]))).flatten) ∧
    (containsSub
        (extract_excel_text
          [(cl "Sheet1", [[some (cl "A"), some (cl "B")], [some (cl "1"), some (cl "2")]])])
        (cl "[Sheet: Sheet1]") = true ∧
     containsSub
        (extract_excel_text
          [(cl "Sheet1", [[some (cl "A"), some (cl "B")], [some (cl "1"), some (cl "2")]])])
        (cl "A\tB") = true ∧
     containsSub
        (extract_excel_text
          [(cl "Sheet1", [[some (cl "A"), some (cl "B")], [some (cl "1"), some (cl "2")]])])
        (cl "1\t2") = true) := by
  constructor
  · intro wb
    induction wb with
    | nil => rfl
    | cons s ws ih =>
      obtain ⟨name, rows⟩ := s
      simp only [excelParts, List.map_cons, List.flatten_cons, ih]
      congr 1
      by_cases hrows : (rows.filter rowHasContent).isEmpty = true
      · have hempty : rows.filter rowHasContent = [] := List.isEmpty_iff.1 hrows
        simp [sheet_text, hempty, hrows]
      · have hne : rows.filter rowHasContent ≠ [] := by
          intro h0
          exact hrows (List.isEmpty_iff.2 h0)
        have hlen : 0 < (rows.filter rowHasContent).length :=
          List.length_pos.2 hne
        have hgt : 1 < (sheet_text name rows).length := by
          simp only [sheet_text, List.length_cons, List.length_map]
          omega
        rw [if_pos hgt, if_neg hrows]
        rfl
  · exact ⟨by decide, by decide, by decide⟩

/-! ### LlamaIndexRAGService

Source: backend/app/services/llamaindex_service.py.  The per-project vector
store directories are modelled as a map from project id to `none` (directory
absent) or `some hasStore` (directory present, `hasStore` records whether
index_store.json was persisted).  Database rows are modelled as `DocRec`
records, file existence as a predicate, and the outcomes of the external
document reader, the embedding/indexing step, the persistence step, the
index load and the engine run as `Except` oracles. -/

/-- File-system state: project id to directory state (`none` = absent,
`some b` = present with `b` = index_store.json present). -/
abbrev FS := Nat → Option Bool

/-- `shutil.rmtree(project_dir)`. -/
def removeDir (fs : FS) (pid : Nat) : FS :=
  fun p => if p = pid then none else fs p

/-- `project_dir.mkdir(parents=True, exist_ok=True)` on a fresh directory. -/
def freshDir (fs : FS) (pid : Nat) : FS :=
  fun p => if p = pid then some false else fs p

/-- `index.storage_context.persist(persist_dir=str(project_dir))`. -/
def persistIndexStore (fs : FS) (pid : Nat) : FS :=
  fun p => if p = pid then some true else fs p

/-- A row of the documents table. -/
structure DocRec where
  projectId : Nat
  filePath : List Char
  isActive : Bool
  processed : Bool

/-- The file paths selected by `build_or_update_index`: documents of the
project with `is_active` and `processed` set whose file exists on disk. -/
def eligibleFiles (db : List DocRec) (fileOnDisk : List Char → Bool) (pid : Nat) :
    List (List Char) :=
  ((db.filter (fun d => d.projectId == pid && d.isActive && d.processed)).map
    (fun d => d.filePath)).filter fileOnDisk

/-- Outcomes of the externally-provided steps of an index build. -/
structure BuildEnv where
  loadedDocs : Except (List Char) (List (List Char))
  indexing : Except (List Char) Unit
  persisting : Except (List Char) Unit

/-- `LlamaIndexRAGService.build_or_update_index`: wholesale rebuild of the
project's index directory; trivial success when no eligible documents exist;
on any failure after the directory was touched, the partially-written
directory is removed and False is returned. -/
def build_or_update_index (avail : Bool) (db : List DocRec)
    (fileOnDisk : List Char → Bool) (env : BuildEnv) (pid : Nat) (fs : FS) :
    Bool × FS :=
  if avail = false then (false, fs)
  else
    let fs1 := freshDir (removeDir fs pid) pid
    let files := eligibleFiles db fileOnDisk pid
    if files.isEmpty then (true, fs1)
    else
      match env.loadedDocs with
      | Except.error _ => (false, removeDir fs1 pid)
      | Except.ok docs =>
        if docs.isEmpty then (true, fs1)
        else
          match env.indexing with
          | Except.error _ => (false, removeDir fs1 pid)
          | Except.ok _ =>
            match env.persisting with
            | Except.error _ => (false, removeDir fs1 pid)
            | Except.ok _ => (true, persistIndexStore fs1 pid)

/-- One entry of `LlamaIndexRAGService.CHUNKING_STRATEGIES`. -/
structure StratCfg where
  parserName : List Char
  chunkSize : Nat
  chunkOverlap : Nat
  similarityTopK : Nat
  deriving DecidableEq

/-- `CHUNKING_STRATEGIES.get(project_type, CHUNKING_STRATEGIES['default'])`. -/
def CHUNKING_STRATEGIES (project_type : Option (List Char)) : StratCfg :=
  match project_type with
  | some k =>
    if k = cl "academic" then ⟨cl "semantic", 1024, 128, 8⟩
    else if k = cl "legal" then ⟨cl "sentence", 512, 64, 6⟩
    else if k = cl "technical" then ⟨cl "recursive", 1536, 256, 10⟩
    else ⟨cl "sentence", 1024, 128, 6⟩
  | none => ⟨cl "sentence", 1024, 128, 6⟩

/-- The observable configuration of a constructed RetrieverQueryEngine. -/
structure Engine where
  similarityTopK : Nat
  similarityCutoff : ℚ
  responseModeCompact : Bool
  streaming : Bool
  deriving DecidableEq

/-- `LlamaIndexRAGService.create_retriever_query_engine`: None when the
library is unavailable, the project directory is absent, index_store.json is
missing, or loading the persisted index raises; otherwise an engine whose
similarity_top_k defaults from the project-type profile and whose similarity
cutoff is 0.2, in compact non-streaming mode. -/
def create_retriever_query_engine (avail : Bool)
    (loadIndex : Except (List Char) Unit) (pid : Nat) (modelName : List Char)
    (similarity_top_k : Option Nat) (project_type : Option (List Char))
    (fs : FS) : Option Engine :=
  if avail = false then none
  else
    match fs pid with
    | none => none
    | some hasStore =>
      if hasStore = false then none
      else
        match loadIndex with
        | Except.error _ => none
        | Except.ok _ =>
          let k :=
            match similarity_top_k with
            | some k => k
            | none => (CHUNKING_STRATEGIES project_type).similarityTopK
          some ⟨k, (0.2 : ℚ), true, false⟩

/-- A retrieved source node of the engine's raw response. -/
structure SourceNode where
  fileName : List Char
  filePath : List Char
  score : ℚ
  text : List Char
  deriving DecidableEq

/-- One entry of the result's sources list. -/
structure SourceInfo where
  file_name : List Char
  file_path : List Char
  similarity_score : ℚ
  content_excerpt : List Char
  deriving DecidableEq

/-- The raw response of `query_engine.query(question)`. -/
structure RawResponse where
  responseText : List Char
  sourceNodes : List SourceNode
  deriving DecidableEq

/-- The metadata dictionary of a query result. -/
structure QueryMetadata where
  error : Option (List Char)
  project_id : Option Nat
  model_name : Option (List Char)
  similarity_top_k : Option (Option Nat)
  num_sources : Option Nat
  deriving DecidableEq

/-- The `{response, sources, metadata}` dictionary returned by `query`. -/
structure RAGResult where
  response : List Char
  sources : List SourceInfo
  metadata : QueryMetadata
  deriving DecidableEq

/-- The source-info record built for each source node: filename, path,
score, and the excerpt truncated to 200 characters with an ellipsis. -/
def mkSourceInfo (n : SourceNode) : SourceInfo :=
  ⟨n.fileName, n.filePath, n.score,
   if 200 < n.text.length then n.text.take 200 ++ cl "..." else n.text⟩

/-- The canned result when LlamaIndex is unavailable. -/
def unavailableResult : RAGResult :=
  ⟨cl "LlamaIndex機能は現在利用できません。", [],
   ⟨some (cl "llamaindex_unavailable"), none, none, none, none⟩⟩

/-- The canned result of the NoIndex state. -/
def noIndexResult : RAGResult :=
  ⟨cl "このプロジェクトにはインデックスがありません。", [],
   ⟨some (cl "no_index"), none, none, none, none⟩⟩

/-- `LlamaIndexRAGService.query`: unavailable and NoIndex short-circuits,
exception-to-degraded-result conversion, and the success path with mapped
source records. -/
def query (avail : Bool) (loadIndex : Except (List Char) Unit)
    (run : Except (List Char) RawResponse) (pid : Nat)
    (question modelName : List Char) (project_type : Option (List Char))
    (similarity_top_k : Option Nat) (fs : FS) : RAGResult :=
  if avail = false then unavailableResult
  else
    match create_retriever_query_engine avail loadIndex pid modelName
        similarity_top_k project_type fs with
    | none => noIndexResult
    | some _ =>
      match run with
      | Except.error e =>
        ⟨cl "検索エラーが発生しました: " ++ e, [],
         ⟨some e, none, none, none, none⟩⟩
      | Except.ok resp =>
        ⟨resp.responseText, resp.sourceNodes.map mkSourceInfo,
         ⟨none, some pid, some modelName, some similarity_top_k,
          some resp.sourceNodes.length⟩⟩

/-- Modelled from the spec: the SimilarityPostprocessor of the llama_index
library (code outside this repository) drops every retrieved chunk whose
similarity score is below the configured cutoff before answer synthesis. -/
def applySimilarityCutoff (cutoff : ℚ) (nodes : List SourceNode) : List SourceNode :=
  nodes.filter (fun n => decide (cutoff ≤ n.score))

theorem query_of_dir_absent (loadIndex : Except (List Char) Unit)
    (run : Except (List Char) RawResponse) (pid : Nat)
    (question modelName : List Char) (project_type : Option (List Char))
    (similarity_top_k : Option Nat) (fs : FS) (hdir : fs pid = none) :
    query true loadIndex run pid question modelName project_type
      similarity_top_k fs = noIndexResult := by
  unfold query create_retriever_query_engine
  rw [hdir]
  rfl

theorem query_of_no_store (loadIndex : Except (List Char) Unit)
    (run : Except (List Char) RawResponse) (pid : Nat)
    (question modelName : List Char) (project_type : Option (List Char))
    (similarity_top_k : Option Nat) (fs : FS) (hdir : fs pid = some false) :
    query true loadIndex run pid question modelName project_type
      similarity_top_k fs = noIndexResult := by
  unfold query create_retriever_query_engine
  rw [hdir]
  rfl

/-! ### Claims C3, C4, C6, C7 -/

/-- The documents loaded by the reader, empty when the reader raised. -/
def loadedDocsOf (env : BuildEnv) : List (List Char) :=
  match env.loadedDocs with
  | Except.ok docs => docs
  | Except.error _ => []

/-- C3: if any step after the project's index directory has been touched
fails (the document reader, the embedding/index construction, or the
persistence step), `build_or_update_index` removes the partially written
directory and returns False, and a subsequent `query` on that project
reports the NoIndex state instead of crashing. -/
theorem build_cleanup_on_failure (db : List DocRec) (fileOnDisk : List Char → Bool)
    (env : BuildEnv) (pid : Nat) (fs : FS)
    (hne : (eligibleFiles db fileOnDisk pid).isEmpty = false)
    (hfail : env.loadedDocs.isOk = false ∨
      ((loadedDocsOf env).isEmpty = false ∧
        (env.indexing.isOk = false ∨ env.persisting.isOk = false))) :
    (build_or_update_index true db fileOnDisk env pid fs).1 = false ∧
    (build_or_update_index true db fileOnDisk env pid fs).2 pid = none ∧
    (∀ loadIndex run question modelName project_type similarity_top_k,
      query true loadIndex run pid question modelName project_type similarity_top_k
        (build_or_update_index true db fileOnDisk env pid fs).2 = noIndexResult) := by
  have hbuild : build_or_update_index true db fileOnDisk env pid fs =
      (false, removeDir (freshDir (removeDir fs pid) pid) pid) := by
    rcases hfail with h1 | ⟨h2, h3⟩
    · cases hl : env.loadedDocs with
      | ok docs => rw [hl] at h1; simp [Except.isOk, Except.toBool] at h1
      | error e => simp [build_or_update_index, hne, hl]
    · cases hl : env.loadedDocs with
      | error e => simp [build_or_update_index, hne, hl]
      | ok docs =>
        have hdocs : docs.isEmpty = false := by
          have h2x := h2
          unfold loadedDocsOf at h2x
          rw [hl] at h2x
          exact h2x
        rcases h3 with h4 | h4
        · cases hi : env.indexing with
          | ok u => rw [hi] at h4; simp [Except.isOk, Except.toBool] at h4
          | error e => simp [build_or_update_index, hne, hl, hdocs, hi]
        · cases hpp : env.persisting with
          | ok u => rw [hpp] at h4; simp [Except.isOk, Except.toBool] at h4
          | error e =>
            cases hi : env.indexing with
            | error e2 => simp [build_or_update_index, hne, hl, hdocs, hi]
            | ok u => simp [build_or_update_index, hne, hl, hdocs, hi, hpp]
  refine ⟨by rw [hbuild], ?_, ?_⟩
  · rw [hbuild]
    simp [removeDir]
  · intro loadIndex run question modelName project_type similarity_top_k
    rw [hbuild]
    exact query_of_dir_absent loadIndex run pid question modelName project_type
      similarity_top_k _ (by simp [removeDir])

def fsEmpty : FS := fun _ => none

def dbOne : List DocRec := [⟨1, cl "uploads/a.txt", true, true⟩]

def diskAll : List Char → Bool := fun _ => true

def envIndexFail : BuildEnv :=
  ⟨Except.ok [cl "doc text"], Except.error (cl "embedding provider down"), Except.ok ()⟩

/-- Witness for C3: a concrete embedding failure during rebuild. -/
theorem build_cleanup_on_failure_witness :
    (eligibleFiles dbOne diskAll 1).isEmpty = false ∧
    (build_or_update_index true dbOne diskAll envIndexFail 1 fsEmpty).1 = false ∧
    (build_or_update_index true dbOne diskAll envIndexFail 1 fsEmpty).2 1 = none ∧
    query true (Except.ok ()) (Except.ok ⟨cl "answer", []⟩) 1 (cl "q") (cl "m")
      none none (build_or_update_index true dbOne diskAll envIndexFail 1 fsEmpty).2 =
      noIndexResult :=
  have h := build_cleanup_on_failure dbOne diskAll envIndexFail 1 fsEmpty (by rfl)
    (Or.inr ⟨by rfl, Or.inl (by rfl)⟩)
  ⟨by rfl, h.1, h.2.1, h.2.2 (Except.ok ()) (Except.ok ⟨cl "answer", []⟩) (cl "q")
    (cl "m") none none⟩

/-- C4: `query` never propagates an exception: when loading the index during
engine creation raises, or running the engine (retrieval or synthesis)
raises, the result is a well-formed record whose sources list is empty,
whose metadata records an error, and whose answer is one of the canned
degraded messages or the error message. -/
theorem query_degrades_on_failure (avail : Bool) (loadIndex : Except (List Char) Unit)
    (run : Except (List Char) RawResponse) (pid : Nat)
    (question modelName : List Char) (project_type : Option (List Char))
    (similarity_top_k : Option Nat) (fs : FS)
    (h : loadIndex.isOk = false ∨ run.isOk = false) :
    (query avail loadIndex run pid question modelName project_type
        similarity_top_k fs).sources = [] ∧
    (query avail loadIndex run pid question modelName project_type
        similarity_top_k fs).metadata.error ≠ none ∧
    ((query avail loadIndex run pid question modelName project_type
        similarity_top_k fs).response = unavailableResult.response ∨
     (query avail loadIndex run pid question modelName project_type
        similarity_top_k fs).response = noIndexResult.response ∨
     ∃ e, run = Except.error e ∧
       (query avail loadIndex run pid question modelName project_type
          similarity_top_k fs).response = cl "検索エラーが発生しました: " ++ e) := by
  unfold query
  by_cases ha : avail = false
  · rw [if_pos ha]
    exact ⟨rfl, by simp [unavailableResult], Or.inl rfl⟩
  · rw [if_neg ha]
    cases hcre : create_retriever_query_engine avail loadIndex pid modelName
        similarity_top_k project_type fs with
    | none =>
      exact ⟨rfl, by simp [noIndexResult], Or.inr (Or.inl rfl)⟩
    | some eng =>
      have hload : loadIndex.isOk = true := by
        cases hl : loadIndex with
        | ok u => rfl
        | error e =>
          rw [hl] at hcre
          have hnone : create_retriever_query_engine avail (Except.error e) pid
              modelName similarity_top_k project_type fs = none := by
            unfold create_retriever_query_engine
            rw [if_neg ha]
            cases hfs : fs pid with
            | none => rfl
            | some b =>
              cases b with
              | false => rfl
              | true => rfl
          rw [hnone] at hcre
          cases hcre
      have hrun : run.isOk = false := by
        rcases h with h1 | h1
        · rw [hload] at h1; cases h1
        · exact h1
      cases hr : run with
      | ok resp => rw [hr] at hrun; simp [Except.isOk, Except.toBool] at hrun
      | error e =>
        exact ⟨rfl, by simp, Or.inr (Or.inr ⟨e, rfl, rfl⟩)⟩

def fsWithIndex : FS := fun p => if p = 1 then some true else none

/-- Witness for C4: a concrete generation-provider failure at query time. -/
theorem query_degrades_on_failure_witness :
    ((Except.ok () : Except (List Char) Unit).isOk = false ∨
      (Except.error (cl "generation provider down") :
        Except (List Char) RawResponse).isOk = false) ∧
    ((query true (Except.ok ()) (Except.error (cl "generation provider down")) 1
        (cl "q") (cl "m") none none fsWithIndex).sources = [] ∧
     (query true (Except.ok ()) (Except.error (cl "generation provider down")) 1
        (cl "q") (cl "m") none none fsWithIndex).metadata.error ≠ none ∧
     ((query true (Except.ok ()) (Except.error (cl "generation provider down")) 1
        (cl "q") (cl "m") none none fsWithIndex).response = unavailableResult.response ∨
      (query true (Except.ok ()) (Except.error (cl "generation provider down")) 1
        (cl "q") (cl "m") none none fsWithIndex).response = noIndexResult.response ∨
      ∃ e, (Except.error (cl "generation provider down") :
            Except (List Char) RawResponse) = Except.error e ∧
        (query true (Except.ok ()) (Except.error (cl "generation provider down")) 1
          (cl "q") (cl "m") none none fsWithIndex).response =
          cl "検索エラーが発生しました: " ++ e)) :=
  ⟨Or.inr rfl,
    query_degrades_on_failure true (Except.ok ())
      (Except.error (cl "generation provider down")) 1 (cl "q") (cl "m") none none
      fsWithIndex (Or.inr rfl)⟩

/-- C6: for a project with zero eligible (active, processed,
existing-on-disk) documents, `build_or_update_index` succeeds trivially and
leaves no index (the recreated directory holds no index store), and the next
`query` on that project returns the canned no-index answer with an empty
sources list rather than an error. -/
theorem build_empty_trivial_success (db : List DocRec) (fileOnDisk : List Char → Bool)
    (env : BuildEnv) (pid : Nat) (fs : FS)
    (hempty : (eligibleFiles db fileOnDisk pid).isEmpty = true) :
    (build_or_update_index true db fileOnDisk env pid fs).1 = true ∧
    (build_or_update_index true db fileOnDisk env pid fs).2 pid ≠ some true ∧
    (∀ loadIndex run question modelName project_type similarity_top_k,
      query true loadIndex run pid question modelName project_type similarity_top_k
        (build_or_update_index true db fileOnDisk env pid fs).2 = noIndexResult) := by
  have hbuild : build_or_update_index true db fileOnDisk env pid fs =
      (true, freshDir (removeDir fs pid) pid) := by
    simp [build_or_update_index, hempty]
  refine ⟨by rw [hbuild], ?_, ?_⟩
  · rw [hbuild]
    simp [freshDir]
  · intro loadIndex run question modelName project_type similarity_top_k
    rw [hbuild]
    exact query_of_no_store loadIndex run pid question modelName project_type
      similarity_top_k _ (by simp [freshDir])

def envAllOk : BuildEnv := ⟨Except.ok [], Except.ok (), Except.ok ()⟩

/-- Witness for C6: a concrete project with no documents at all. -/
theorem build_empty_trivial_success_witness :
    (eligibleFiles [] diskAll 7).isEmpty = true ∧
    (build_or_update_index true [] diskAll envAllOk 7 fsEmpty).1 = true ∧
    (build_or_update_index true [] diskAll envAllOk 7 fsEmpty).2 7 ≠ some true ∧
    query true (Except.ok ()) (Except.ok ⟨cl "answer", []⟩) 7 (cl "q") (cl "m")
      none none (build_or_update_index true [] diskAll envAllOk 7 fsEmpty).2 =
      noIndexResult :=
  have h := build_empty_trivial_success [] diskAll envAllOk 7 fsEmpty (by rfl)
  ⟨by rfl, h.1, h.2.1, h.2.2 (Except.ok ()) (Except.ok ⟨cl "answer", []⟩) (cl "q")
    (cl "m") none none⟩

/-- C7 counterexample: with no explicit similarity_top_k, the engine built
for a legal-style profile retrieves 6 chunks, exactly as many as the
default profile — not fewer than six as the claim states. -/
theorem legal_topk_counterexample :
    create_retriever_query_engine true (Except.ok ()) 1 (cl "llama3.2") none
        (some (cl "legal")) fsWithIndex =
      some ⟨6, (0.2 : ℚ), true, false⟩ ∧
    ¬ (CHUNKING_STRATEGIES (some (cl "legal"))).similarityTopK < 6 := by
  exact ⟨rfl, by decide⟩

/-- C7 (amended): when no explicit similarity_top_k is supplied the engine's
retrieval count comes from the project profile — six for the default
profile, eight (more than six) for academic, ten for technical, and six
(the same as the default, not fewer) for legal — its similarity cutoff is
0.2, and the modelled similarity postprocessor keeps exactly the retrieved
chunks whose score is at least that cutoff, dropping every chunk scoring
below it before synthesis. -/
theorem retriever_topk_and_cutoff :
    (∀ loadIndex pid modelName project_type fs eng,
      create_retriever_query_engine true loadIndex pid modelName none
          project_type fs = some eng →
      eng.similarityTopK = (CHUNKING_STRATEGIES project_type).similarityTopK ∧
      eng.similarityCutoff = (0.2 : ℚ)) ∧
    (CHUNKING_STRATEGIES none).similarityTopK = 6 ∧
    (CHUNKING_STRATEGIES (some (cl "academic"))).similarityTopK = 8 ∧ 6 < 8 ∧
    (CHUNKING_STRATEGIES (some (cl "technical"))).similarityTopK = 10 ∧ 6 < 10 ∧
    (CHUNKING_STRATEGIES (some (cl "legal"))).similarityTopK = 6 ∧
    (∀ cutoff nodes n, n ∈ applySimilarityCutoff cutoff nodes ↔
      n ∈ nodes ∧ cutoff ≤ n.score) := by
  refine ⟨?_, by rfl, by rfl, by decide, by rfl, by decide, by rfl, ?_⟩
  · intro loadIndex pid modelName project_type fs eng h
    cases hl : loadIndex with
    | error e =>
      rw [hl] at h
      have hnone : create_retriever_query_engine true (Except.error e) pid
          modelName none project_type fs = none := by
        unfold create_retriever_query_engine
        rw [if_neg (by simp : ¬(true = false))]
        cases hfs : fs pid with
        | none => rfl
        | some b =>
          cases b with
          | false => rfl
          | true => rfl
      rw [hnone] at h
      cases h
    | ok u =>
      rw [hl] at h
      cases hfs : fs pid with
      | none =>
        have hnone : create_retriever_query_engine true (Except.ok u) pid
            modelName none project_type fs = none := by
          unfold create_retriever_query_engine
          rw [if_neg (by simp : ¬(true = false)), hfs]
        rw [hnone] at h
        cases h
      | some b =>
        cases b with
        | false =>
          have hnone : create_retriever_query_engine true (Except.ok u) pid
              modelName none project_type fs = none := by
            unfold create_retriever_query_engine
            rw [if_neg (by simp : ¬(true = false)), hfs]
            exact rfl
          rw [hnone] at h
          cases h
        | true =>
          have hsome : create_retriever_query_engine true (Except.ok u) pid
              modelName none project_type fs =
              some ⟨(CHUNKING_STRATEGIES project_type).similarityTopK,
                (0.2 : ℚ), true, false⟩ := by
            unfold create_retriever_query_engine
            rw [if_neg (by simp : ¬(true = false)), hfs]
            exact rfl
          rw [hsome] at h
          have h2 := Option.some.inj h
          rw [← h2]
          exact ⟨rfl, rfl⟩
  · intro cutoff nodes n
    simp [applySimilarityCutoff]

/-- Witness for the amended C7 theorem at a concrete engine. -/
theorem retriever_topk_and_cutoff_witness :
    (Engine.mk 6 (0.2 : ℚ) true false).similarityTopK =
        (CHUNKING_STRATEGIES (some (cl "legal"))).similarityTopK ∧
    (Engine.mk 6 (0.2 : ℚ) true false).similarityCutoff = (0.2 : ℚ) :=
  retriever_topk_and_cutoff.1 (Except.ok ()) 1 (cl "llama3.2") (some (cl "legal"))
    fsWithIndex (Engine.mk 6 (0.2 : ℚ) true false) rfl
